import Mathlib

set_option maxRecDepth 40000

/-!
Verification development for the `mcs` chat system.

Each section embeds one component of the Rust sources as executable Lean
definitions and proves the stated properties about them:

* the wire codec (`src/protocol/src/lib.rs`),
* the auth service (`src/server/src/service/auth.rs`),
* the chat service (`src/server/src/service/chat.rs`),
* the message-history query (`src/server/src/repository/postgres.rs`,
  `src/server/src/db.rs`),
* the load-balancer state (`src/lb/src/state/lb.rs`),
* the accept-task join gate (`src/server/src/main.rs`),
* the in-memory chat-server registration (`src/server/src/state.rs`).

Rust `String` values are modelled as lists of byte values (`List Nat`),
machine integers as `Nat`/`Int` with explicit `% 2 ^ w` where the source
wraps, and fallible calls as `Except` values supplied by an environment
record so that call ordering and short-circuiting are explicit.
-/

namespace Mcs

/-! ### Byte-level helpers for the wire codec -/

/-- Big-endian byte decomposition of `n` into `w` bytes (most significant
first); models what a sequence of `put_u8` calls emitting `n`'s big-endian
representation produces, truncating to `w` bytes exactly as Rust's
`as u32`/`to_be_bytes` casts do. -/
def natToBytesBE : Nat → Nat → List Nat
  | 0, _ => []
  | w + 1, n => natToBytesBE w (n / 256) ++ [n % 256]

/-- Big-endian recomposition of a byte list into a natural number,
modelling `u32::from_be_bytes` and friends. -/
def bytesToNatBE (l : List Nat) : Nat := l.foldl (fun acc b => acc * 256 + b) 0

/-- The four big-endian bytes written by `put_u32(n as u32)`. -/
def u32be (n : Nat) : List Nat := natToBytesBE 4 n

/-- The eight big-endian bytes of a 64-bit word. -/
def u64be (n : Nat) : List Nat := natToBytesBE 8 n

/-- The eight big-endian bytes written by `put_i64(t)`: the two's-complement
representation of `t`. -/
def i64be (t : Int) : List Nat := u64be (t.emod (2 ^ 64)).toNat

/-- `get_u32`: read the first four bytes of `l` as a big-endian `u32`. -/
def readU32 (l : List Nat) : Nat := bytesToNatBE (l.take 4)

/-- `get_i64`: read the first eight bytes of `l` as a big-endian
two's-complement `i64`. -/
def readI64 (l : List Nat) : Int :=
  let n := bytesToNatBE (l.take 8)
  if n < 2 ^ 63 then (n : Int) else (n : Int) - 2 ^ 64

/-- A UTF-8 continuation byte (`0x80..=0xBF`). -/
def isCont (b : Nat) : Bool := 0x80 ≤ b && b ≤ 0xBF

/-- RFC 3629 UTF-8 validity of a byte list; models the check performed by
Rust's `String::from_utf8` in the decoder. -/
def utf8Valid : List Nat → Bool
  | [] => true
  | b :: rest =>
    if b ≤ 0x7F then utf8Valid rest
    else if 0xC2 ≤ b && b ≤ 0xDF then
      match rest with
      | c1 :: r => isCont c1 && utf8Valid r
      | [] => false
    else if b = 0xE0 then
      match rest with
      | c1 :: c2 :: r => (0xA0 ≤ c1 && c1 ≤ 0xBF) && isCont c2 && utf8Valid r
      | _ => false
    else if (0xE1 ≤ b && b ≤ 0xEC) || (0xEE ≤ b && b ≤ 0xEF) then
      match rest with
      | c1 :: c2 :: r => isCont c1 && isCont c2 && utf8Valid r
      | _ => false
    else if b = 0xED then
      match rest with
      | c1 :: c2 :: r => (0x80 ≤ c1 && c1 ≤ 0x9F) && isCont c2 && utf8Valid r
      | _ => false
    else if b = 0xF0 then
      match rest with
      | c1 :: c2 :: c3 :: r =>
        (0x90 ≤ c1 && c1 ≤ 0xBF) && isCont c2 && isCont c3 && utf8Valid r
      | _ => false
    else if 0xF1 ≤ b && b ≤ 0xF3 then
      match rest with
      | c1 :: c2 :: c3 :: r => isCont c1 && isCont c2 && isCont c3 && utf8Valid r
      | _ => false
    else if b = 0xF4 then
      match rest with
      | c1 :: c2 :: c3 :: r =>
        (0x80 ≤ c1 && c1 ≤ 0x8F) && isCont c2 && isCont c3 && utf8Valid r
      | _ => false
    else false

/-! ### The wire protocol (`src/protocol/src/lib.rs`) -/

/-- `protocol::ChatPacket`: sender and content are the byte contents of the
Rust `String` fields, the timestamp is an `i64`. -/
structure ChatPacket where
  sender : List Nat
  content : List Nat
  timestamp : Int
deriving DecidableEq, Repr

/-- `protocol::Message`, the wire-visible tagged union. -/
inductive Message where
  | chat : ChatPacket → Message
  | join : List Nat → Message
  | heartbeat : Message
  | error : List Nat → Message
deriving DecidableEq, Repr

/-- `McsCodec::encode` (src/protocol/src/lib.rs:81-115): one type-tag byte,
then the 4-byte big-endian payload length (`as u32` wraps, which
`natToBytesBE` reproduces), then the payload bytes. -/
def encode : Message → List Nat
  | .chat p =>
    let payloadLength := 12 + p.sender.length + p.content.length
    1 :: (u32be payloadLength ++ i64be p.timestamp ++ u32be p.sender.length
      ++ p.sender ++ p.content)
  | .join u => 2 :: (u32be u.length ++ u)
  | .heartbeat => 3 :: u32be 0
  | .error t => 4 :: (u32be t.length ++ t)

/-- Outcome of one `McsCodec::decode` call: `Ok(None)` (incomplete buffer),
`Err(..)`, or `Ok(Some(msg))` together with the bytes left in the buffer. -/
inductive DecodeResult where
  | incomplete : DecodeResult
  | fail : DecodeResult
  | ok : Message → List Nat → DecodeResult
deriving DecidableEq, Repr

/-- `McsCodec::decode` (src/protocol/src/lib.rs:29-75).  The buffer is
`src`; byte 0 is the type tag, bytes 1..5 the big-endian payload length.
`split_to(name_length)` panics in the source when `name_length` exceeds the
remaining payload; that unreachable-for-encoded-input case is modelled as
`.fail`. -/
def decode (src : List Nat) : DecodeResult :=
  if src.length < 5 then .incomplete
  else
    let length := readU32 (src.drop 1)
    if src.length < 5 + length then .incomplete
    else
      let msgType := src.headD 0
      let payload := (src.drop 5).take length
      let rest := src.drop (5 + length)
      if msgType = 1 then
        if payload.length < 12 then .fail
        else
          let timestamp := readI64 payload
          let nameLength := readU32 (payload.drop 8)
          if payload.length - 12 < nameLength then .fail
          else
            let sender := (payload.drop 12).take nameLength
            let content := (payload.drop 12).drop nameLength
            if utf8Valid sender && utf8Valid content then
              .ok (.chat ⟨sender, content, timestamp⟩) rest
            else .fail
      else if msgType = 2 then
        if utf8Valid payload then .ok (.join payload) rest else .fail
      else if msgType = 3 then .ok .heartbeat rest
      else if msgType = 4 then
        if utf8Valid payload then .ok (.error payload) rest else .fail
      else .fail

/-- Well-formedness of a message as produced by the Rust program: string
fields hold valid UTF-8 (they come from Rust `String`s) and lengths fit the
32-bit length fields the encoder writes with `as u32`; the timestamp is a
64-bit signed value. -/
def MsgWF : Message → Prop
  | .chat p => utf8Valid p.sender ∧ utf8Valid p.content
      ∧ 12 + p.sender.length + p.content.length < 2 ^ 32
      ∧ -2 ^ 63 ≤ p.timestamp ∧ p.timestamp < 2 ^ 63
  | .join u => utf8Valid u ∧ u.length < 2 ^ 32
  | .heartbeat => True
  | .error t => utf8Valid t ∧ t.length < 2 ^ 32

end Mcs

namespace Mcs

/-! ### Codec lemmas -/

theorem natToBytesBE_length (w n : Nat) : (natToBytesBE w n).length = w := by
  induction w generalizing n with
  | zero => rfl
  | succ w ih => simp [natToBytesBE, ih]

theorem u32be_length (n : Nat) : (u32be n).length = 4 := natToBytesBE_length 4 n

theorem i64be_length (t : Int) : (i64be t).length = 8 := natToBytesBE_length 8 _

theorem bytesToNatBE_natToBytesBE (w n : Nat) :
    bytesToNatBE (natToBytesBE w n) = n % 256 ^ w := by
  induction w generalizing n with
  | zero =>
    simp only [natToBytesBE, bytesToNatBE, List.foldl_nil, pow_zero, Nat.mod_one]
  | succ w ih =>
    have h : (256 : Nat) ^ (w + 1) = 256 * 256 ^ w := by ring
    rw [natToBytesBE]
    unfold bytesToNatBE
    rw [List.foldl_append]
    simp only [List.foldl_cons, List.foldl_nil]
    change bytesToNatBE (natToBytesBE w (n / 256)) * 256 + n % 256 = _
    rw [ih, h, Nat.mod_mul]
    ring

theorem readU32_append (n : Nat) (l : List Nat) :
    readU32 (u32be n ++ l) = n % 2 ^ 32 := by
  unfold readU32
  rw [List.take_left' (u32be_length n), u32be, bytesToNatBE_natToBytesBE]
  norm_num

theorem readI64_i64be (t : Int) (l : List Nat)
    (h1 : -2 ^ 63 ≤ t) (h2 : t < 2 ^ 63) :
    readI64 (i64be t ++ l) = t := by
  have hlen : (natToBytesBE 8 (t.emod (2 ^ 64)).toNat).length = 8 :=
    natToBytesBE_length 8 _
  have hemod_nonneg : 0 ≤ t.emod (2 ^ 64) := Int.emod_nonneg t (by norm_num)
  have hemod_lt : t.emod (2 ^ 64) < 2 ^ 64 := Int.emod_lt_of_pos t (by norm_num)
  have hcast : ((t.emod (2 ^ 64)).toNat : Int) = t.emod (2 ^ 64) :=
    Int.toNat_of_nonneg hemod_nonneg
  have hval : bytesToNatBE ((i64be t ++ l).take 8) = (t.emod (2 ^ 64)).toNat := by
    rw [show i64be t ++ l = natToBytesBE 8 (t.emod (2 ^ 64)).toNat ++ l from rfl,
      List.take_left' hlen, bytesToNatBE_natToBytesBE, Nat.mod_eq_of_lt]
    have h8 : (256 : Nat) ^ 8 = 2 ^ 64 := by norm_num
    rw [h8]
    omega
  unfold readI64
  rw [hval]
  have he : t.emod (2 ^ 64) = t % 2 ^ 64 := rfl
  rw [he] at hcast
  dsimp only
  split <;> omega

end Mcs

namespace Mcs

/-! ### Codec round-trip (one lemma per wire variant) -/

theorem decode_encode_join (u : List Nat) (hu : utf8Valid u = true)
    (hlen : u.length < 2 ^ 32) :
    decode (encode (.join u)) = .ok (.join u) [] := by
  have hlen5 : ((2 : Nat) :: (u32be u.length ++ u)).length = 5 + u.length := by
    simp [u32be_length]
    omega
  have hdrop1 : ((2 : Nat) :: (u32be u.length ++ u)).drop 1 = u32be u.length ++ u := rfl
  have hread : readU32 (((2 : Nat) :: (u32be u.length ++ u)).drop 1) = u.length := by
    rw [hdrop1, readU32_append, Nat.mod_eq_of_lt hlen]
  have hdrop5 : ((2 : Nat) :: (u32be u.length ++ u)).drop 5 = u := by
    have h : ((2 : Nat) :: (u32be u.length ++ u)).drop 5
        = (u32be u.length ++ u).drop 4 := rfl
    rw [h, List.drop_left' (u32be_length _)]
  have hdropRest : ((2 : Nat) :: (u32be u.length ++ u)).drop (5 + u.length) = [] := by
    apply List.drop_eq_nil_of_le
    rw [hlen5]
  rw [show encode (.join u) = 2 :: (u32be u.length ++ u) from rfl]
  unfold decode
  rw [hread]
  dsimp only [List.headD_cons]
  rw [if_neg (by rw [hlen5]; omega), if_neg (by rw [hlen5]; omega),
    if_neg (by decide), if_pos rfl, hdrop5, List.take_length, if_pos hu, hdropRest]

theorem decode_encode_error (t : List Nat) (hu : utf8Valid t = true)
    (hlen : t.length < 2 ^ 32) :
    decode (encode (.error t)) = .ok (.error t) [] := by
  have hlen5 : ((4 : Nat) :: (u32be t.length ++ t)).length = 5 + t.length := by
    simp [u32be_length]
    omega
  have hdrop1 : ((4 : Nat) :: (u32be t.length ++ t)).drop 1 = u32be t.length ++ t := rfl
  have hread : readU32 (((4 : Nat) :: (u32be t.length ++ t)).drop 1) = t.length := by
    rw [hdrop1, readU32_append, Nat.mod_eq_of_lt hlen]
  have hdrop5 : ((4 : Nat) :: (u32be t.length ++ t)).drop 5 = t := by
    have h : ((4 : Nat) :: (u32be t.length ++ t)).drop 5
        = (u32be t.length ++ t).drop 4 := rfl
    rw [h, List.drop_left' (u32be_length _)]
  have hdropRest : ((4 : Nat) :: (u32be t.length ++ t)).drop (5 + t.length) = [] := by
    apply List.drop_eq_nil_of_le
    rw [hlen5]
  rw [show encode (.error t) = 4 :: (u32be t.length ++ t) from rfl]
  unfold decode
  rw [hread]
  dsimp only [List.headD_cons]
  rw [if_neg (by rw [hlen5]; omega), if_neg (by rw [hlen5]; omega),
    if_neg (by decide), if_neg (by decide), if_neg (by decide), if_pos rfl,
    hdrop5, List.take_length, if_pos hu, hdropRest]

theorem decode_encode_chat (sd ct : List Nat) (ts : Int)
    (hu1 : utf8Valid sd = true) (hu2 : utf8Valid ct = true)
    (hP : 12 + sd.length + ct.length < 2 ^ 32)
    (ht1 : -2 ^ 63 ≤ ts) (ht2 : ts < 2 ^ 63) :
    decode (encode (.chat ⟨sd, ct, ts⟩)) = .ok (.chat ⟨sd, ct, ts⟩) [] := by
  set B := i64be ts ++ (u32be sd.length ++ (sd ++ ct)) with hBdef
  have hB : B.length = 12 + sd.length + ct.length := by
    simp [hBdef, i64be_length, u32be_length]
    omega
  have hsrc : encode (.chat ⟨sd, ct, ts⟩)
      = 1 :: (u32be (12 + sd.length + ct.length) ++ B) := by
    simp [encode, hBdef, List.append_assoc]
  have hlenTot : ((1 : Nat) :: (u32be (12 + sd.length + ct.length) ++ B)).length
      = 5 + (12 + sd.length + ct.length) := by
    simp [u32be_length, hB]
    omega
  have hread : readU32 (((1 : Nat) :: (u32be (12 + sd.length + ct.length) ++ B)).drop 1)
      = 12 + sd.length + ct.length := by
    rw [show ((1 : Nat) :: (u32be (12 + sd.length + ct.length) ++ B)).drop 1
        = u32be (12 + sd.length + ct.length) ++ B from rfl,
      readU32_append, Nat.mod_eq_of_lt hP]
  have hdrop5 : ((1 : Nat) :: (u32be (12 + sd.length + ct.length) ++ B)).drop 5 = B := by
    rw [show ((1 : Nat) :: (u32be (12 + sd.length + ct.length) ++ B)).drop 5
        = (u32be (12 + sd.length + ct.length) ++ B).drop 4 from rfl,
      List.drop_left' (u32be_length _)]
  have hpayload : (((1 : Nat) :: (u32be (12 + sd.length + ct.length) ++ B)).drop 5).take
      (12 + sd.length + ct.length) = B := by
    rw [hdrop5]
    exact List.take_of_length_le (by rw [hB])
  have hrest : ((1 : Nat) :: (u32be (12 + sd.length + ct.length) ++ B)).drop
      (5 + (12 + sd.length + ct.length)) = [] := by
    apply List.drop_eq_nil_of_le
    rw [hlenTot]
  have hts : readI64 B = ts := readI64_i64be ts _ ht1 ht2
  have hname : readU32 (B.drop 8) = sd.length := by
    rw [hBdef, List.drop_left' (i64be_length ts), readU32_append,
      Nat.mod_eq_of_lt (by omega)]
  have hdrop12 : B.drop 12 = sd ++ ct := by
    rw [hBdef, show i64be ts ++ (u32be sd.length ++ (sd ++ ct))
        = (i64be ts ++ u32be sd.length) ++ (sd ++ ct) by simp [List.append_assoc]]
    exact List.drop_left' (by simp [i64be_length, u32be_length])
  have hsender : (B.drop 12).take sd.length = sd := by
    rw [hdrop12, List.take_left]
  have hcontent : (B.drop 12).drop sd.length = ct := by
    rw [hdrop12, List.drop_left]
  rw [hsrc]
  unfold decode
  rw [hread]
  dsimp only [List.headD_cons]
  rw [if_neg (by rw [hlenTot]; omega), if_neg (by rw [hlenTot]; omega), if_pos rfl,
    hpayload, if_neg (by rw [hB]; omega), hname, if_neg (by rw [hB]; omega),
    hsender, hcontent, hts, if_pos (by rw [hu1, hu2]; rfl), hrest]

/-- C1.  Codec round-trip: for every well-formed `Message m` (string fields
are the bytes of Rust `String`s, lengths fit the 32-bit length fields, and
the timestamp is a 64-bit signed value), decoding the bytes produced by
`encode m` yields exactly `m` with the buffer fully consumed. -/
theorem claim_C1_codec_roundtrip (m : Message) (h : MsgWF m) :
    decode (encode m) = .ok m [] := by
  cases m with
  | chat p =>
    obtain ⟨sd, ct, ts⟩ := p
    exact decode_encode_chat sd ct ts h.1 h.2.1 h.2.2.1 h.2.2.2.1 h.2.2.2.2
  | join u => exact decode_encode_join u h.1 h.2
  | heartbeat => decide
  | error t => exact decode_encode_error t h.1 h.2

/-- Witness for C1 at a concrete chat message. -/
theorem claim_C1_codec_roundtrip_witness :
    MsgWF (.chat ⟨[97], [98, 99], 1700000000⟩) ∧
      decode (encode (.chat ⟨[97], [98, 99], 1700000000⟩))
        = .ok (.chat ⟨[97], [98, 99], 1700000000⟩) [] := by
  have h : MsgWF (.chat ⟨[97], [98, 99], 1700000000⟩) :=
    ⟨by decide, by decide, by decide, by decide, by decide⟩
  exact ⟨h, claim_C1_codec_roundtrip _ h⟩

/-- C2, as stated, is false on the code: an encoded frame starts with a
one-byte type tag, not with the 4-byte length.  Concretely, for
`Message::Heartbeat` the frame is `[3, 0, 0, 0, 0]`: it is not of the form
`u32_be(len(payload)) ++ payload` for any payload, and its first 4 bytes
differ from `u32_be(0)` even though its payload is empty. -/
theorem claim_C2_counterexample :
    (¬ ∃ payload : List Nat, encode .heartbeat = u32be payload.length ++ payload)
      ∧ (encode .heartbeat).take 4 ≠ u32be 0 := by
  constructor
  · rintro ⟨p, h⟩
    have hl : p.length = 1 := by
      have hc := congrArg List.length h
      simp [encode, u32be_length] at hc
      omega
    rw [hl, show encode .heartbeat = [3, 0, 0, 0, 0] from rfl,
      show u32be 1 = [0, 0, 0, 1] from rfl] at h
    simp at h
  · decide

/-- C2 amended: every encoded frame is a 1-byte type tag, followed by the
4-byte big-endian payload length `L`, followed by exactly `L` bytes of
payload; equivalently bytes 1..5 (not 0..4) of `encode m` equal
`u32_be(len(payload))`, and the whole frame has `5 + L` bytes. -/
theorem claim_C2_framing (m : Message) :
    ∃ tag L payload, encode m = tag :: (u32be L ++ payload)
      ∧ payload.length = L
      ∧ ((encode m).drop 1).take 4 = u32be L
      ∧ (encode m).length = 5 + L := by
  have main : ∃ tag L payload,
      encode m = tag :: (u32be L ++ payload) ∧ payload.length = L := by
    cases m with
    | chat p =>
      refine ⟨1, 12 + p.sender.length + p.content.length,
        i64be p.timestamp ++ (u32be p.sender.length ++ (p.sender ++ p.content)),
        ?_, ?_⟩
      · simp [encode, List.append_assoc]
      · simp [i64be_length, u32be_length]
        omega
    | join u => exact ⟨2, u.length, u, rfl, rfl⟩
    | heartbeat => exact ⟨3, 0, [], by simp [encode], rfl⟩
    | error t => exact ⟨4, t.length, t, rfl, rfl⟩
  obtain ⟨tag, L, payload, he, hl⟩ := main
  refine ⟨tag, L, payload, he, hl, ?_, ?_⟩
  · rw [he, show (tag :: (u32be L ++ payload)).drop 1 = u32be L ++ payload from rfl,
      List.take_left' (u32be_length L)]
  · rw [he]
    simp [u32be_length, hl]
    omega

end Mcs

namespace Mcs

/-! ### Load-balancer state (src/lb/src/state/lb.rs) -/

/-- `BackendState` (src/lb/src/state/lb.rs:13-18).  `active_connections` is
a `usize`, kept as a `Nat` with an explicit wrap at `2 ^ 64` wherever the
source's arithmetic can wrap. -/
structure BackendState where
  addr : String
  active_connections : Nat
  is_healthy : Bool
deriving DecidableEq, Repr

/-- A snapshot of the `backends` HashMap, listed in iteration order; keys
(`addr`) are unique in the source map. -/
abbrev BackendMap := List BackendState

/-- One step of `Iterator::min_by_key` on `active_connections`: keep the
accumulator unless the new element is strictly smaller, so ties keep the
first element in iteration order, as Rust's `min_by_key` does. -/
def minStep (acc : Option BackendState) (b : BackendState) : Option BackendState :=
  match acc with
  | none => some b
  | some m => if b.active_connections < m.active_connections then some b else some m

/-- `.min_by_key(|b| b.active_connections)` over an iterator. -/
def minByActive (l : List BackendState) : Option BackendState :=
  l.foldl minStep none

/-- `LoadBalancerState::next_backend` (lb.rs:34-41): among healthy backends
pick one with minimum `active_connections`, returning its `addr`. -/
def next_backend (backends : BackendMap) : Option String :=
  (minByActive (backends.filter (·.is_healthy))).map (·.addr)

/-- `HashMap::get_mut` update: modify the entry whose key is `addr` if it
exists (keys are unique), leave the map unchanged otherwise — the shared
shape of `set_health` / `inc_backend_connection` / `dec_backend_connection`,
whose bodies are `if let Some(b) = ...get_mut(addr) { ... }`. -/
def updateBackend (l : BackendMap) (addr : String) (f : BackendState → BackendState) :
    BackendMap :=
  match l with
  | [] => []
  | b :: r => if b.addr = addr then f b :: r else b :: updateBackend r addr f

/-- `LoadBalancerState::set_health` (lb.rs:67-71). -/
def set_health (l : BackendMap) (addr : String) (hb : Bool) : BackendMap :=
  updateBackend l addr (fun b => { b with is_healthy := hb })

/-- `LoadBalancerState::inc_backend_connection` (lb.rs:73-80):
`active_connections += 1`, a wrapping usize addition. -/
def inc_backend_connection (l : BackendMap) (addr : String) : BackendMap :=
  updateBackend l addr
    (fun b => { b with active_connections := (b.active_connections + 1) % 2 ^ 64 })

/-- `LoadBalancerState::dec_backend_connection` (lb.rs:82-89):
`active_connections -= 1` with no underflow guard; at 0 the usize
subtraction wraps to `2 ^ 64 - 1` in release builds (it panics in debug
builds); the model uses the wrapping semantics. -/
def dec_backend_connection (l : BackendMap) (addr : String) : BackendMap :=
  updateBackend l addr
    (fun b =>
      { b with active_connections := (b.active_connections + (2 ^ 64 - 1)) % 2 ^ 64 })

/-! ### Load-balancer lemmas -/

theorem minFold_some (l : List BackendState) (a : BackendState) :
    ∃ m, l.foldl minStep (some a) = some m
      ∧ (m = a ∨ m ∈ l) ∧ m.active_connections ≤ a.active_connections
      ∧ ∀ b ∈ l, m.active_connections ≤ b.active_connections := by
  induction l generalizing a with
  | nil => exact ⟨a, rfl, .inl rfl, le_refl _, by simp⟩
  | cons b r ih =>
    rw [List.foldl_cons]
    by_cases hb : b.active_connections < a.active_connections
    · rw [show minStep (some a) b = some b by simp [minStep, hb]]
      obtain ⟨m, h1, h2, h3, h4⟩ := ih b
      refine ⟨m, h1, ?_, by omega, ?_⟩
      · rcases h2 with h2 | h2
        · exact .inr (h2 ▸ List.mem_cons_self b r)
        · exact .inr (List.mem_cons_of_mem b h2)
      · intro x hx
        rcases List.mem_cons.mp hx with hx | hx
        · exact hx ▸ h3
        · exact h4 x hx
    · rw [show minStep (some a) b = some a by simp [minStep, hb]]
      obtain ⟨m, h1, h2, h3, h4⟩ := ih a
      refine ⟨m, h1, ?_, h3, ?_⟩
      · rcases h2 with h2 | h2
        · exact .inl h2
        · exact .inr (List.mem_cons_of_mem b h2)
      · intro x hx
        rcases List.mem_cons.mp hx with hx | hx
        · subst hx
          omega
        · exact h4 x hx

theorem minByActive_none_iff (l : List BackendState) :
    minByActive l = none ↔ l = [] := by
  cases l with
  | nil => simp [minByActive]
  | cons b r =>
    simp only [minByActive, List.foldl_cons]
    rw [show minStep none b = some b from rfl]
    obtain ⟨m, h1, -, -, -⟩ := minFold_some r b
    simp [h1]

theorem minByActive_mem_min (l : List BackendState) (m : BackendState)
    (h : minByActive l = some m) :
    m ∈ l ∧ ∀ b ∈ l, m.active_connections ≤ b.active_connections := by
  cases l with
  | nil => simp [minByActive] at h
  | cons b r =>
    rw [minByActive, List.foldl_cons, show minStep none b = some b from rfl] at h
    obtain ⟨m', h1, h2, h3, h4⟩ := minFold_some r b
    rw [h1] at h
    cases h
    constructor
    · rcases h2 with h2 | h2
      · exact h2 ▸ List.mem_cons_self b r
      · exact List.mem_cons_of_mem b h2
    · intro x hx
      rcases List.mem_cons.mp hx with hx | hx
      · exact hx ▸ h3
      · exact h4 x hx

theorem updateBackend_not_mem (l : BackendMap) (addr : String)
    (f : BackendState → BackendState) (h : ∀ b ∈ l, b.addr ≠ addr) :
    updateBackend l addr f = l := by
  induction l with
  | nil => rfl
  | cons b r ih =>
    rw [updateBackend, if_neg (h b (List.mem_cons_self b r)),
      ih (fun x hx => h x (List.mem_cons_of_mem b hx))]

end Mcs

namespace Mcs

theorem next_backend_eq_none (backends : BackendMap)
    (h : ∀ b ∈ backends, b.is_healthy = false) : next_backend backends = none := by
  unfold next_backend
  have hnil : backends.filter (·.is_healthy) = [] := by
    rw [List.filter_eq_nil_iff]
    intro a ha
    simp [h a ha]
  rw [hnil, (minByActive_none_iff _).mpr rfl, Option.map_none']

theorem next_backend_some_spec (backends : BackendMap) (addr : String)
    (h : next_backend backends = some addr) :
    ∃ b ∈ backends, b.is_healthy = true ∧ b.addr = addr
      ∧ ∀ c ∈ backends, c.is_healthy = true →
          b.active_connections ≤ c.active_connections := by
  unfold next_backend at h
  obtain ⟨m, hm, haddr⟩ := Option.map_eq_some'.mp h
  obtain ⟨hmem, hmin⟩ := minByActive_mem_min _ m hm
  rw [List.mem_filter] at hmem
  refine ⟨m, hmem.1, hmem.2, haddr, ?_⟩
  intro c hc hch
  exact hmin c (List.mem_filter.mpr ⟨hc, hch⟩)

theorem next_backend_isSome (backends : BackendMap) (b : BackendState)
    (hb : b ∈ backends) (hh : b.is_healthy = true) :
    ∃ addr, next_backend backends = some addr := by
  unfold next_backend
  have hmemf : b ∈ backends.filter (·.is_healthy) := List.mem_filter.mpr ⟨hb, hh⟩
  cases hmin : minByActive (backends.filter (·.is_healthy)) with
  | none =>
    rw [(minByActive_none_iff _).mp hmin] at hmemf
    simp at hmemf
  | some m => exact ⟨m.addr, rfl⟩

/-- C4.  `next_backend` returns (the address of) a backend with minimum
`active_connections` among the healthy ones, returns `none` exactly when no
healthy backend exists, and on any iteration-order permutation of the
snapshot `{(a,3,healthy), (b,1,healthy), (c,0,unhealthy)}` it returns `b`
(so repeated calls on the same snapshot agree, `next_backend` being a
function of the snapshot). -/
theorem claim_C4_pick_backend (backends : BackendMap) :
    ((∀ b ∈ backends, b.is_healthy = false) → next_backend backends = none)
    ∧ (∀ addr, next_backend backends = some addr →
        ∃ b ∈ backends, b.is_healthy = true ∧ b.addr = addr
          ∧ ∀ c ∈ backends, c.is_healthy = true →
              b.active_connections ≤ c.active_connections)
    ∧ ((∃ b ∈ backends, b.is_healthy = true) →
        ∃ addr, next_backend backends = some addr)
    ∧ (∀ l : BackendMap,
        l.Perm [⟨"a", 3, true⟩, ⟨"b", 1, true⟩, ⟨"c", 0, false⟩] →
        next_backend l = some "b") := by
  refine ⟨next_backend_eq_none backends,
    fun addr h => next_backend_some_spec backends addr h,
    fun ⟨b, hb, hh⟩ => next_backend_isSome backends b hb hh, ?_⟩
  intro l hperm
  have hBmem : (⟨"b", 1, true⟩ : BackendState) ∈ l := hperm.mem_iff.mpr (by simp)
  obtain ⟨addr, haddr⟩ := next_backend_isSome l _ hBmem rfl
  obtain ⟨b, hb, hh, hba, hmin⟩ := next_backend_some_spec l addr haddr
  have hble : b.active_connections ≤ 1 := hmin _ hBmem rfl
  have hbmem : b ∈ [(⟨"a", 3, true⟩ : BackendState), ⟨"b", 1, true⟩, ⟨"c", 0, false⟩] :=
    hperm.mem_iff.mp hb
  simp only [List.mem_cons, List.not_mem_nil, or_false] at hbmem
  rcases hbmem with h | h | h
  · rw [h] at hble
    simp at hble
  · rw [haddr, ← hba, h]
  · rw [h] at hh
    simp at hh

/-- Witness for C4: the concrete snapshot from the spec yields `b`, and an
empty pool yields `none`. -/
theorem claim_C4_pick_backend_witness :
    next_backend [⟨"a", 3, true⟩, ⟨"b", 1, true⟩, ⟨"c", 0, false⟩] = some "b"
      ∧ next_backend ([] : BackendMap) = none :=
  ⟨(claim_C4_pick_backend []).2.2.2 _ (List.Perm.refl _),
   (claim_C4_pick_backend []).1 (by simp)⟩

/-- C5 (claim: "dec does not underflow") is wrong about the code:
`dec_backend_connection` subtracts with no guard, so on a backend whose
`active_connections` is 0 the usize value wraps to `2 ^ 64 - 1` (release
builds; debug builds panic) instead of staying ≥ 0 as a saturating
decrement would. -/
theorem claim_C5_dec_underflow :
    dec_backend_connection [⟨"a", 0, true⟩] "a" = [⟨"a", 2 ^ 64 - 1, true⟩] := by
  decide

/-- C10.  Calling `set_health`, `inc_backend_connection` or
`dec_backend_connection` with an address absent from the backend map leaves
the map entirely unchanged. -/
theorem claim_C10_unknown_addr_noop (l : BackendMap) (addr : String) (hb : Bool)
    (h : ∀ b ∈ l, b.addr ≠ addr) :
    set_health l addr hb = l ∧ inc_backend_connection l addr = l
      ∧ dec_backend_connection l addr = l :=
  ⟨updateBackend_not_mem l addr _ h, updateBackend_not_mem l addr _ h,
   updateBackend_not_mem l addr _ h⟩

/-- Witness for C10 at a concrete map and absent address. -/
theorem claim_C10_unknown_addr_noop_witness :
    set_health [⟨"a", 1, true⟩] "x" false = [⟨"a", 1, true⟩]
      ∧ inc_backend_connection [⟨"a", 1, true⟩] "x" = [⟨"a", 1, true⟩]
      ∧ dec_backend_connection [⟨"a", 1, true⟩] "x" = [⟨"a", 1, true⟩] :=
  claim_C10_unknown_addr_noop _ _ _ (by decide)

end Mcs

namespace Mcs

/-! ### Message history query
(src/server/src/repository/postgres.rs:74-93, src/server/src/db.rs:103-122) -/

/-- The SQL `ORDER BY timestamp DESC` ordering on stored messages ("newer
or equally new"); tie order between equal timestamps is arbitrary in SQL,
and insertion sort fixes one such order. -/
def tsGe (a b : ChatPacket) : Prop := b.timestamp ≤ a.timestamp

instance : DecidableRel tsGe := fun a b => inferInstanceAs (Decidable (b.timestamp ≤ a.timestamp))

instance : IsTotal ChatPacket tsGe := ⟨fun a b => le_total b.timestamp a.timestamp⟩

instance : IsTrans ChatPacket tsGe := ⟨fun _ _ _ h1 h2 => le_trans h2 h1⟩

/-- `get_recent_messages(before_ts)`: the SQL query
`SELECT .. WHERE timestamp < $1 ORDER BY timestamp DESC LIMIT 50` over the
stored rows followed by the Rust `.rev()`: filter strictly below the
cursor, sort descending by timestamp, keep the first 50 rows, reverse. -/
def get_recent_messages (before_ts : Int) (table : List ChatPacket) : List ChatPacket :=
  (((table.filter (fun m => decide (m.timestamp < before_ts))).insertionSort tsGe).take
    50).reverse

/-- A `messages` table holding 120 rows with timestamps 1,2,…,120 (sender
and content are immaterial to the query). -/
def table120 : List ChatPacket := (List.range 120).map (fun i => ⟨[], [], (i : Int) + 1⟩)

/-- C6's concrete expectation is false on the code: after saving messages
with timestamps 1..120, `get_recent_messages 100` returns the 50 messages
with timestamps 50..=99 (ascending), not the 49 messages 51..=99 that the
claim names. -/
theorem claim_C6_counterexample :
    (get_recent_messages 100 table120).map (fun m => m.timestamp)
      ≠ (List.range 49).map (fun i => (i : Int) + 51) := by
  decide

end Mcs

namespace Mcs

/-- C6 amended.  `get_recent_messages ts` returns, ascending by timestamp,
the (up to) 50 newest stored messages with timestamp strictly below `ts`:
the result is sorted ascending, every element is `< ts`, its length is
`min 50` (number of matching rows), every matching row left out is no newer
than anything returned (and then exactly 50 rows were returned), and on
timestamps 1..120 the call `get_recent_messages 100` returns exactly
timestamps 50..=99 — not 51..=99 as the claim's concrete instance says. -/
theorem claim_C6_history_window (ts : Int) (table : List ChatPacket) :
    (get_recent_messages ts table).Sorted (fun a b => a.timestamp ≤ b.timestamp)
    ∧ (∀ m ∈ get_recent_messages ts table, m.timestamp < ts)
    ∧ (get_recent_messages ts table).length
        = min 50 (table.filter (fun m => decide (m.timestamp < ts))).length
    ∧ (∀ m ∈ table, m.timestamp < ts → m ∉ get_recent_messages ts table →
        (get_recent_messages ts table).length = 50
          ∧ ∀ c ∈ get_recent_messages ts table, m.timestamp ≤ c.timestamp)
    ∧ (get_recent_messages 100 table120).map (fun m => m.timestamp)
        = (List.range 50).map (fun i => (i : Int) + 50) := by
  set f := table.filter (fun m => decide (m.timestamp < ts)) with hf
  set s := f.insertionSort tsGe with hs
  have hsorted : s.Sorted tsGe := List.sorted_insertionSort tsGe f
  have hperm : s.Perm f := List.perm_insertionSort tsGe f
  have hout : get_recent_messages ts table = (s.take 50).reverse := rfl
  refine ⟨?_, ?_, ?_, ?_, by decide⟩
  · rw [hout]
    exact List.pairwise_reverse.mpr
      ((List.Pairwise.sublist (List.take_sublist 50 s) hsorted).imp (fun h => h))
  · intro m hm
    rw [hout, List.mem_reverse] at hm
    have hms : m ∈ s := List.Sublist.mem hm (List.take_sublist 50 s)
    have hmf : m ∈ f := hperm.mem_iff.mp hms
    rw [hf, List.mem_filter] at hmf
    simpa using hmf.2
  · rw [hout, List.length_reverse, List.length_take, List.length_insertionSort]
  · intro m hmt hmts hmo
    have hmf : m ∈ f := by
      rw [hf, List.mem_filter]
      exact ⟨hmt, by simpa using hmts⟩
    have hms : m ∈ s := hperm.mem_iff.mpr hmf
    have hmdrop : m ∈ s.drop 50 := by
      rcases (List.mem_append.mp (by rw [List.take_append_drop 50 s]; exact hms :
        m ∈ s.take 50 ++ s.drop 50)) with h | h
      · exact absurd (by rw [hout, List.mem_reverse]; exact h) hmo
      · exact h
    have hlen : 50 < s.length := by
      by_contra hle
      rw [List.drop_eq_nil_of_le (by omega)] at hmdrop
      simp at hmdrop
    constructor
    · rw [hout, List.length_reverse, List.length_take]
      omega
    · intro c hc
      rw [hout, List.mem_reverse] at hc
      exact hsorted.rel_of_mem_take_of_mem_drop hc hmdrop


/-- Witness for C6 at the concrete 120-row table. -/
theorem claim_C6_history_window_witness :
    (⟨[], [], 55⟩ : ChatPacket) ∈ get_recent_messages 100 table120
      ∧ (⟨[], [], 55⟩ : ChatPacket).timestamp < 100 :=
  ⟨by decide, (claim_C6_history_window 100 table120).2.1 ⟨[], [], 55⟩ (by decide)⟩

end Mcs

namespace Mcs

/-! ### Auth service (src/server/src/service/auth.rs) -/

/-- ASCII whitespace bytes removed by Rust's `str::trim` (the source trims
`char::is_whitespace`; multibyte Unicode whitespace bytes are not
modelled and no claim depends on them). -/
def isWsByte (b : Nat) : Bool := b = 9 || b = 10 || b = 11 || b = 12 || b = 13 || b = 32

/-- `username.trim()` on the UTF-8 byte representation: drop whitespace
from both ends. -/
def strTrim (l : List Nat) : List Nat :=
  ((l.dropWhile isWsByte).reverse.dropWhile isWsByte).reverse

/-- The `crate::error::Error` variants `register_and_login` can produce
(`auth.rs` uses `UsernameTooShort`, `InvalidCredentials`, `UsernameTaken`);
`repoErr` stands for any repository error propagated by `?`. -/
inductive AuthError where
  | usernameTooShort : List Nat → AuthError
  | invalidCredentials : AuthError
  | usernameTaken : AuthError
  | repoErr : AuthError
deriving DecidableEq, Repr

/-- Oracle outcomes for the repository calls `register_and_login` can
make, in order: first `verify_credentials`, then (only on the
`create_user` path) `create_user` and the second `verify_credentials`,
then `set_online`.  The repositories are trait objects backed by external
state, so their results are inputs of the model. -/
structure AuthEnv where
  verify1 : Except Unit Bool
  create : Except Unit Unit
  verify2 : Except Unit Bool
  setOnline : Except Unit Bool

/-- Which repository a call went to; used to record the call trace. -/
inductive AuthCall where
  | verifyCall | createCall | presenceCall
deriving DecidableEq, Repr

/-- `AuthService::register_and_login` (auth.rs:16-36): reject when the
trimmed username has fewer than 3 bytes; otherwise verify, creating the
user and re-verifying when the first verification fails; finally acquire
presence.  Returns the `Result` together with the repository calls made,
in order.  The password only flows into the oracle outcomes. -/
def register_and_login (username _password : List Nat) (env : AuthEnv) :
    Except AuthError Unit × List AuthCall :=
  if (strTrim username).length < 3 then
    (.error (.usernameTooShort username), [])
  else
    match env.verify1 with
    | .error _ => (.error .repoErr, [.verifyCall])
    | .ok true =>
      match env.setOnline with
      | .error _ => (.error .repoErr, [.verifyCall, .presenceCall])
      | .ok false => (.error .usernameTaken, [.verifyCall, .presenceCall])
      | .ok true => (.ok (), [.verifyCall, .presenceCall])
    | .ok false =>
      match env.create with
      | .error _ => (.error .repoErr, [.verifyCall, .createCall])
      | .ok () =>
        match env.verify2 with
        | .error _ => (.error .repoErr, [.verifyCall, .createCall, .verifyCall])
        | .ok false =>
          (.error .invalidCredentials, [.verifyCall, .createCall, .verifyCall])
        | .ok true =>
          match env.setOnline with
          | .error _ => (.error .repoErr,
              [.verifyCall, .createCall, .verifyCall, .presenceCall])
          | .ok false => (.error .usernameTaken,
              [.verifyCall, .createCall, .verifyCall, .presenceCall])
          | .ok true =>
              (.ok (), [.verifyCall, .createCall, .verifyCall, .presenceCall])

/-- C3.  `register_and_login` first returns `UsernameTooShort` when the
trimmed username length is < 3, before any repository or presence call;
otherwise a true first `verify` skips `create_user`; a false first
`verify` is followed by `create_user` and a second `verify`, whose
`Ok(false)` yields `InvalidCredentials`; and when the flow reaches
`acquire_presence`, `Ok(false)` yields `UsernameTaken` while `Ok(true)`
succeeds. -/
theorem claim_C3_register_and_login (username pw : List Nat) (env : AuthEnv) :
    ((strTrim username).length < 3 →
      register_and_login username pw env = (.error (.usernameTooShort username), []))
    ∧ (3 ≤ (strTrim username).length →
        (env.verify1 = .ok true →
            AuthCall.createCall ∉ (register_and_login username pw env).2)
        ∧ (env.verify1 = .ok false → env.create = .ok () → env.verify2 = .ok false →
            (register_and_login username pw env).1 = .error .invalidCredentials
              ∧ (register_and_login username pw env).2
                  = [.verifyCall, .createCall, .verifyCall])
        ∧ ((env.verify1 = .ok true ∨ (env.verify1 = .ok false ∧ env.create = .ok ()
              ∧ env.verify2 = .ok true)) →
            (env.setOnline = .ok false →
              (register_and_login username pw env).1 = .error .usernameTaken)
            ∧ (env.setOnline = .ok true →
              (register_and_login username pw env).1 = .ok ())
            ∧ AuthCall.presenceCall ∈ (register_and_login username pw env).2)) := by
  obtain ⟨v1, cr, v2, so⟩ := env
  by_cases hlen : (strTrim username).length < 3
  · exact ⟨fun _ => by simp [register_and_login, hlen], fun h3 => absurd hlen (by omega)⟩
  · refine ⟨fun h => absurd h hlen, fun _ => ⟨?_, ?_, ?_⟩⟩
    · rintro rfl
      rcases so with e | b
      · simp [register_and_login, hlen]
      · cases b <;> simp [register_and_login, hlen]
    · rintro rfl rfl rfl
      simp [register_and_login, hlen]
    · rintro (rfl | ⟨rfl, rfl, rfl⟩)
      · rcases so with e | b
        · simp [register_and_login, hlen]
        · cases b <;> simp [register_and_login, hlen]
      · rcases so with e | b
        · simp [register_and_login, hlen]
        · cases b <;> simp [register_and_login, hlen]

/-- Witness for C3: a fresh 3-byte username goes through create+verify and
succeeds; a 1-byte username is rejected with no repository calls. -/
theorem claim_C3_register_and_login_witness :
    (register_and_login [97, 98, 99] [112] ⟨.ok false, .ok (), .ok true, .ok true⟩).1
        = .ok ()
      ∧ register_and_login [97] [112] ⟨.ok true, .ok (), .ok true, .ok true⟩
          = (.error (.usernameTooShort [97]), []) :=
  ⟨(((claim_C3_register_and_login [97, 98, 99] [112]
        ⟨.ok false, .ok (), .ok true, .ok true⟩).2 (by decide)).2.2
      (.inr ⟨rfl, rfl, rfl⟩)).2.1 rfl,
   (claim_C3_register_and_login [97] [112]
        ⟨.ok true, .ok (), .ok true, .ok true⟩).1 (by decide)⟩

end Mcs

namespace Mcs

/-! ### Chat service (src/server/src/service/chat.rs) -/

/-- The UTF-8 bytes of `"server"`, the sender of system packets. -/
def serverBytes : List Nat := [115, 101, 114, 118, 101, 114]

/-- Modelled from the spec: `ChatPacket::new_user_packet(sender, content)`
— its `impl` block is not under src/ (only callers are) — builds a packet
with `timestamp = now` (§4.9 "construct packet with `timestamp = now`");
the clock is passed explicitly. -/
def new_user_packet (sender content : List Nat) (now : Int) : ChatPacket :=
  ⟨sender, content, now⟩

/-- Modelled from the spec: `ChatPacket::new_server_packet(content)` —
also missing from src/ — is `new_user_packet` with sender `"server"` (§3,
§4.9). -/
def new_server_packet (content : List Nat) (now : Int) : ChatPacket :=
  ⟨serverBytes, content, now⟩

/-- Oracle inputs of one chat-service call: the clock and the outcomes of
the `save_message` and bus `broadcast` repository calls. -/
structure ChatEnv where
  now : Int
  saveRes : Except Unit Unit
  pubRes : Except Unit Unit

/-- A repository call made by the chat service, recorded in call order. -/
inductive ChatEffect where
  | save : ChatPacket → ChatEffect
  | publish : Message → ChatEffect
deriving DecidableEq, Repr

/-- `ChatService::broadcast_user_message` (chat.rs:21-28): build the
packet, `save_message` it, then `broadcast` `Message::Chat(packet)` on the
bus; each `?` stops at the first failure. -/
def broadcast_user_message (sender content : List Nat) (env : ChatEnv) :
    Except Unit Unit × List ChatEffect :=
  let packet := new_user_packet sender content env.now
  match env.saveRes with
  | .error e => (.error e, [.save packet])
  | .ok () =>
    match env.pubRes with
    | .error e => (.error e, [.save packet, .publish (.chat packet)])
    | .ok () => (.ok (), [.save packet, .publish (.chat packet)])

/-- `ChatService::broadcast_system_message` (chat.rs:30-39): as the user
variant but with the `"server"` sender, returning the packet on success. -/
def broadcast_system_message (content : List Nat) (env : ChatEnv) :
    Except Unit ChatPacket × List ChatEffect :=
  let packet := new_server_packet content env.now
  match env.saveRes with
  | .error e => (.error e, [.save packet])
  | .ok () =>
    match env.pubRes with
    | .error e => (.error e, [.save packet, .publish (.chat packet)])
    | .ok () => (.ok packet, [.save packet, .publish (.chat packet)])

/-- C7.  In both `broadcast_user_message` and `broadcast_system_message`,
any published packet was saved first (the trace is exactly
`[save packet, publish (Chat packet)]` and the save succeeded), and when
persistence fails nothing is published. -/
theorem claim_C7_persist_before_publish (sender content : List Nat) (env : ChatEnv) :
    (∀ msg, ChatEffect.publish msg ∈ (broadcast_user_message sender content env).2 →
        env.saveRes = .ok ()
          ∧ (broadcast_user_message sender content env).2
              = [.save (new_user_packet sender content env.now),
                 .publish (.chat (new_user_packet sender content env.now))]
          ∧ msg = .chat (new_user_packet sender content env.now))
    ∧ (env.saveRes ≠ .ok () →
        ∀ msg, ChatEffect.publish msg ∉ (broadcast_user_message sender content env).2)
    ∧ (∀ msg, ChatEffect.publish msg ∈ (broadcast_system_message content env).2 →
        env.saveRes = .ok ()
          ∧ (broadcast_system_message content env).2
              = [.save (new_server_packet content env.now),
                 .publish (.chat (new_server_packet content env.now))]
          ∧ msg = .chat (new_server_packet content env.now))
    ∧ (env.saveRes ≠ .ok () →
        ∀ msg, ChatEffect.publish msg ∉ (broadcast_system_message content env).2) := by
  obtain ⟨now, sv, pb⟩ := env
  rcases sv with e | u
  · refine ⟨fun msg hm => ?_, fun _ msg hm => ?_, fun msg hm => ?_, fun _ msg hm => ?_⟩ <;>
      simp [broadcast_user_message, broadcast_system_message] at hm
  · cases u
    rcases pb with e | u'
    · refine ⟨fun msg hm => ⟨rfl, rfl, ?_⟩, fun hne => absurd rfl hne,
        fun msg hm => ⟨rfl, rfl, ?_⟩, fun hne => absurd rfl hne⟩ <;>
        simpa [broadcast_user_message, broadcast_system_message] using hm
    · cases u'
      refine ⟨fun msg hm => ⟨rfl, rfl, ?_⟩, fun hne => absurd rfl hne,
        fun msg hm => ⟨rfl, rfl, ?_⟩, fun hne => absurd rfl hne⟩ <;>
        simpa [broadcast_user_message, broadcast_system_message] using hm

/-- Witness for C7 at a concrete sender, content, clock and all-ok
repositories. -/
theorem claim_C7_persist_before_publish_witness :
    (ChatEffect.publish (.chat (new_user_packet [97] [98] 5))
        ∈ (broadcast_user_message [97] [98] ⟨5, .ok (), .ok ()⟩).2)
      ∧ (⟨5, .ok (), .ok ()⟩ : ChatEnv).saveRes = .ok ()
      ∧ (broadcast_user_message [97] [98] ⟨5, .ok (), .ok ()⟩).2
          = [.save (new_user_packet [97] [98] 5),
             .publish (.chat (new_user_packet [97] [98] 5))] := by
  have h := (claim_C7_persist_before_publish [97] [98] ⟨5, .ok (), .ok ()⟩).1
    (.chat (new_user_packet [97] [98] 5)) (by decide)
  exact ⟨by decide, h.1, h.2.1⟩

end Mcs
namespace Mcs

/-! ### Accept-task join gate (src/server/src/main.rs:117-156) -/

/-- Outcomes of the calls `handle_registration` makes:
`server.register_user(name)` (the error carries the `to_chat_error` text
written back to the client), the `"joined"` broadcast, and
`server.get_history()`. -/
structure GateEnv where
  registerRes : Except (List Nat) Unit
  broadcastRes : Except Unit Unit
  historyRes : Except Unit (List ChatPacket)

/-- Observable events of the accept task: a registration attempt, a frame
written to this client, and the start of session processing
(`handle_session`). -/
inductive GateEvent where
  | registerCall : List Nat → GateEvent
  | writeFrame : Message → GateEvent
  | sessionStart : List Nat → GateEvent
deriving DecidableEq, Repr

/-- `handle_registration` (main.rs:129-156): on `register_user` success,
broadcast the join notice (`?`), fetch history (`?`) and write each
history packet as a `Chat` frame; on failure write one `Error` frame and
return the error. -/
def handle_registration (name : List Nat) (env : GateEnv) :
    Except Unit Unit × List GateEvent :=
  match env.registerRes with
  | .ok () =>
    match env.broadcastRes with
    | .error e => (.error e, [.registerCall name])
    | .ok () =>
      match env.historyRes with
      | .error e => (.error e, [.registerCall name])
      | .ok hist =>
        (.ok (), .registerCall name :: hist.map (fun p => .writeFrame (.chat p)))
  | .error txt => (.error (), [.registerCall name, .writeFrame (.error txt)])

/-- The accept task after the TLS handshake (main.rs:114-125): read the
first frame; only `Some(Ok(Message::Join(name)))` passes the
`if let` gate, which then runs `handle_registration` and, only on its
success, `handle_session`.  Every other first read outcome — `None`
(zero-byte close), a decode error, or any non-`Join` frame — ends the
task. -/
def accept_task (first : Option (Except Unit Message)) (env : GateEnv) : List GateEvent :=
  match first with
  | some (.ok (.join name)) =>
    match handle_registration name env with
    | (.ok _, tr) => tr ++ [.sessionStart name]
    | (.error _, tr) => tr
  | _ => []

/-- C8.  If the first decoded frame of a connection is anything other
than `Join` (including a decode error or EOF before any frame), the
accept task does nothing: no registration attempt, no frame written, no
session; and a session starts only for a `Join` first frame whose
registration succeeded. -/
theorem claim_C8_join_first (first : Option (Except Unit Message)) (env : GateEnv) :
    ((∀ name, first ≠ some (.ok (.join name))) → accept_task first env = [])
    ∧ (∀ name, GateEvent.sessionStart name ∈ accept_task first env →
        first = some (.ok (.join name)) ∧ env.registerRes = .ok ()) := by
  obtain ⟨rg, bc, hi⟩ := env
  constructor
  · intro h
    match first with
    | none => rfl
    | some (.error e) => rfl
    | some (.ok (.chat p)) => rfl
    | some (.ok .heartbeat) => rfl
    | some (.ok (.error t)) => rfl
    | some (.ok (.join name)) => exact absurd rfl (h name)
  · intro name hmem
    match first with
    | none => simp [accept_task] at hmem
    | some (.error e) => simp [accept_task] at hmem
    | some (.ok (.chat p)) => simp [accept_task] at hmem
    | some (.ok .heartbeat) => simp [accept_task] at hmem
    | some (.ok (.error t)) => simp [accept_task] at hmem
    | some (.ok (.join name')) =>
      rcases rg with txt | u
      · simp [accept_task, handle_registration] at hmem
      · cases u
        rcases bc with e | u'
        · simp [accept_task, handle_registration] at hmem
        · cases u'
          rcases hi with e | hist
          · simp [accept_task, handle_registration] at hmem
          · simp [accept_task, handle_registration] at hmem
            subst hmem
            exact ⟨rfl, rfl⟩

/-- Witness for C8: a `Heartbeat` first frame produces no events; a `Join`
first frame with successful registration starts the session. -/
theorem claim_C8_join_first_witness :
    accept_task (some (.ok .heartbeat)) ⟨.ok (), .ok (), .ok []⟩ = []
      ∧ ((some (.ok (.join [97])) : Option (Except Unit Message))
            = some (.ok (.join [97]))
          ∧ (⟨.ok (), .ok (), .ok []⟩ : GateEnv).registerRes = .ok ()) :=
  ⟨(claim_C8_join_first (some (.ok .heartbeat)) ⟨.ok (), .ok (), .ok []⟩).1
      (fun name => by simp),
   (claim_C8_join_first (some (.ok (.join [97]))) ⟨.ok (), .ok (), .ok []⟩).2 [97]
      (by decide)⟩

/-! ### In-memory chat server registration (src/server/src/state.rs) -/

/-- The UTF-8 bytes of `"client"`. -/
def clientBytes : List Nat := [99, 108, 105, 101, 110, 116]

/-- The two error strings `ChatServer::register_user` produces:
`"Username too short"` and `"Username taken"`. -/
inductive RegError where
  | tooShort
  | taken
deriving DecidableEq, Repr

/-- `ChatServer::register_user` (state.rs:63-102) restricted to its
effect on the `active_users` map (keyed by username; the stored writer and
the frames written to the new client do not affect the map): reject names
shorter than 3 bytes, then names already present or equal to `"server"` or
`"client"`; otherwise insert the name. -/
def register_user (users : List (List Nat)) (name : List Nat) :
    Except RegError Unit × List (List Nat) :=
  if name.length < 3 then (.error .tooShort, users)
  else if name ∈ users ∨ name = serverBytes ∨ name = clientBytes then
    (.error .taken, users)
  else (.ok (), users ++ [name])

/-- C9.  `register_user` rejects `"server"` and `"client"` with the
"Username taken" error even when absent from the active-user map, rejects
any name already in the map (with "Username taken" whenever the length
check does not fire first), and every rejection leaves the map
unchanged. -/
theorem claim_C9_reserved_usernames (users : List (List Nat)) (name : List Nat) :
    ((name = serverBytes ∨ name = clientBytes) →
        register_user users name = (.error .taken, users))
    ∧ (name ∈ users → 3 ≤ name.length →
        register_user users name = (.error .taken, users))
    ∧ (∀ e, (register_user users name).1 = .error e →
        (register_user users name).2 = users) := by
  refine ⟨?_, ?_, ?_⟩
  · rintro (rfl | rfl)
    · rw [register_user, if_neg (by decide), if_pos (.inr (.inl rfl))]
    · rw [register_user, if_neg (by decide), if_pos (.inr (.inr rfl))]
  · intro hmem hlen
    rw [register_user, if_neg (by omega), if_pos (.inl hmem)]
  · intro e
    unfold register_user
    split
    · intro _
      rfl
    · split
      · intro _
        rfl
      · intro h
        simp at h

/-- Witness for C9: `"server"` is rejected on an empty map; a name already
present is rejected and not re-inserted. -/
theorem claim_C9_reserved_usernames_witness :
    register_user [] serverBytes = (.error .taken, [])
      ∧ register_user [[97, 98, 99]] [97, 98, 99]
          = (.error .taken, [[97, 98, 99]]) :=
  ⟨(claim_C9_reserved_usernames [] serverBytes).1 (.inl rfl),
   (claim_C9_reserved_usernames [[97, 98, 99]] [97, 98, 99]).2.1 (by decide) (by decide)⟩

end Mcs
